import Mathlib

/-
  Verification of the transcript parser of IceboxDev/ChatSearch
  (src/backend/main.py, lines 207-325).

  The parser is embedded shallowly: the regular expressions `_FMT_A`,
  `_FMT_B`, `_FMT_B_SYS` and `MEDIA_OMITTED` are compiled by hand into
  deterministic character-list functions whose results coincide with
  Python `re.match` / `re.search` on the patterns (the only place the
  regex engine backtracks in these patterns is the tail
  `\s+([^:]+):\s*(.*)`, resolved here in closed form; every digit group
  in the patterns is followed by a context that rejects digits, so the
  greedy digit runs are deterministic).  `parse_chat`,
  `_detect_dominant_format`, `_parse_fmt_a`, `_parse_fmt_b` and
  `_expand_year` are translated function by function.
-/

namespace ChatSearch

/-- Python whitespace (the set matched by `\s` in a `str` pattern and
stripped by `str.strip()`). -/
def pyIsSpace (c : Char) : Bool :=
  c = ' ' || c = '\t' || c = '\n' || c = '\r' || c = '\u000B' || c = '\u000C' ||
  c = '\u001C' || c = '\u001D' || c = '\u001E' || c = '\u001F' || c = '\u0085' ||
  c = '\u00A0' || c = '\u1680' || ('\u2000' ≤ c && c ≤ '\u200A') ||
  c = '\u2028' || c = '\u2029' || c = '\u202F' || c = '\u205F' || c = '\u3000'

/-- Python `str.strip()` on a character list. -/
def pyStripL (cs : List Char) : List Char :=
  ((cs.dropWhile pyIsSpace).reverse.dropWhile pyIsSpace).reverse

/-- Python `str.strip()`. -/
def pyStrip (s : String) : String := ⟨pyStripL s.data⟩

/-- The separator class `[/.\-]` of the date patterns. -/
def isSepChar (c : Char) : Bool := c = '/' || c = '.' || c = '-'

/-- Maximal leading digit run: `(run, rest)`. -/
def takeDigits (cs : List Char) : List Char × List Char :=
  (cs.takeWhile Char.isDigit, cs.dropWhile Char.isDigit)

/-- `\d{lo,hi}`.  In every context where the patterns use a digit group,
the group is followed by a character class that rejects digits, so the
regex group matches exactly the maximal digit run, with its length
required to lie in `[lo, hi]`. -/
def pDigits (lo hi : Nat) (cs : List Char) : Option (List Char × List Char) :=
  if lo ≤ (takeDigits cs).1.length ∧ (takeDigits cs).1.length ≤ hi
  then some (takeDigits cs) else none

/-- A single expected literal character. -/
def pLit (c : Char) (cs : List Char) : Option (List Char) :=
  match cs with
  | [] => none
  | c0 :: rest => if c0 = c then some rest else none

/-- `\s*`: consume the (maximal) whitespace run. -/
def pWsStar (cs : List Char) : List Char := cs.dropWhile pyIsSpace

/-- `\s+` immediately followed by a non-whitespace literal: the greedy
run is deterministic.  Returns the rest after the run, requiring at
least one whitespace character. -/
def pWsPlus (cs : List Char) : Option (List Char) :=
  if (cs.takeWhile pyIsSpace).length ≥ 1 then some (cs.dropWhile pyIsSpace) else none

/-- The optional AM/PM marker `(?:\u202F?[APap][Mm])?` of `_TIME`.
Returns the consumed characters (possibly none) and the rest. -/
def pAmPm (cs : List Char) : List Char × List Char :=
  match cs with
  | '\u202F' :: c1 :: c2 :: rest =>
      if (c1 = 'A' || c1 = 'P' || c1 = 'a' || c1 = 'p') && (c2 = 'M' || c2 = 'm')
      then (['\u202F', c1, c2], rest) else ([], cs)
  | c1 :: c2 :: rest =>
      if (c1 = 'A' || c1 = 'P' || c1 = 'a' || c1 = 'p') && (c2 = 'M' || c2 = 'm')
      then ([c1, c2], rest) else ([], cs)
  | _ => ([], cs)

/-- The time pattern `_TIME = \d{1,2}:\d{2}(?::\d{2})?(?:\u202F?[APap][Mm])?`.
Returns the captured characters and the rest. -/
def pTime (cs : List Char) : Option (List Char × List Char) :=
  match pDigits 1 2 cs with
  | none => none
  | some (h, r1) =>
    match pLit ':' r1 with
    | none => none
    | some r2 =>
      match pDigits 2 2 r2 with
      | none => none
      | some (m, r3) =>
        -- optional seconds `(?::\d{2})?`
        let secPart : List Char × List Char :=
          match pLit ':' r3 with
          | none => ([], r3)
          | some r4 =>
            match pDigits 2 2 r4 with
            | none => ([], r3)
            | some (s, r5) => (':' :: s, r5)
        let ap := pAmPm secPart.2
        some (h ++ ':' :: m ++ secPart.1 ++ ap.1, ap.2)

/-- The date pattern `_DATE = \d{1,2}[/.\-]\d{1,2}[/.\-]\d{2,4}`.
Returns the captured characters and the rest. -/
def pDate (cs : List Char) : Option (List Char × List Char) :=
  match pDigits 1 2 cs with
  | none => none
  | some (g1, r1) =>
    match r1 with
    | [] => none
    | s1 :: r2 =>
      if isSepChar s1 then
        match pDigits 1 2 r2 with
        | none => none
        | some (g2, r3) =>
          match r3 with
          | [] => none
          | s2 :: r4 =>
            if isSepChar s2 then
              match pDigits 2 4 r4 with
              | none => none
              | some (g3, r5) => some (g1 ++ s1 :: g2 ++ s2 :: g3, r5)
            else none
      else none

/-- The tail `\s+([^:]+):\s*(.*)` shared by `_FMT_A` and `_FMT_B`,
in closed form.  The regex engine backtracks the greedy `\s+` just far
enough for `[^:]+` to be non-empty and end at the first `:` of the
input; writing `k` for the whitespace-run length and `p` for the index
of the first colon, a match exists iff `k ≥ 1` and `p ≥ 2`, the sender
group is the slice `[min k (p-1), p)` and the text group is everything
after the colon with its leading whitespace consumed by `\s*`.
Returns `(sender group, text group)`. -/
def pSenderText (cs : List Char) : Option (List Char × List Char) :=
  let k := (cs.takeWhile pyIsSpace).length
  match cs.findIdx? (· = ':') with
  | none => none
  | some p =>
    if 1 ≤ k ∧ 2 ≤ p then
      some ((cs.drop (min k (p - 1))).take (p - min k (p - 1)),
            (cs.drop (p + 1)).dropWhile pyIsSpace)
    else none

/-- The regex `_FMT_A = ^\[(_TIME),\s*(_DATE)\]\s+([^:]+):\s*(.*)`.
Returns the four groups `(time, date, sender, text)`. -/
def matchFmtA (cs : List Char) :
    Option (List Char × List Char × List Char × List Char) :=
  match pLit '[' cs with
  | none => none
  | some r1 =>
    match pTime r1 with
    | none => none
    | some (t, r2) =>
      match pLit ',' r2 with
      | none => none
      | some r3 =>
        match pDate (pWsStar r3) with
        | none => none
        | some (d, r4) =>
          match pLit ']' r4 with
          | none => none
          | some r5 =>
            match pSenderText r5 with
            | none => none
            | some (s, x) => some (t, d, s, x)

/-- The shared front `^(_DATE),\s*(_TIME)\s+-` of `_FMT_B` and
`_FMT_B_SYS`.  Returns `(date, time, rest after the dash)`. -/
def pFmtBDash (cs : List Char) :
    Option (List Char × List Char × List Char) :=
  match pDate cs with
  | none => none
  | some (d, r1) =>
    match pLit ',' r1 with
    | none => none
    | some r2 =>
      match pTime (pWsStar r2) with
      | none => none
      | some (t, r3) =>
        match pWsPlus r3 with
        | none => none
        | some r4 =>
          match pLit '-' r4 with
          | none => none
          | some r5 => some (d, t, r5)

/-- The regex `_FMT_B = ^(_DATE),\s*(_TIME)\s+-\s+([^:]+):\s*(.*)`.
Returns the four groups `(date, time, sender, text)`. -/
def matchFmtB (cs : List Char) :
    Option (List Char × List Char × List Char × List Char) :=
  match pFmtBDash cs with
  | none => none
  | some (d, t, r) =>
    match pSenderText r with
    | none => none
    | some (s, x) => some (d, t, s, x)

/-- The tail `\s+[^:]+$` of `_FMT_B_SYS`, in closed form: a split
`\s+` / `[^:]+` with the second part non-empty and colon-free exists iff
the whitespace run is non-empty, the rest has at least two characters,
and no colon occurs after the whitespace run (a colon cannot sit inside
the run itself, so this is exactly `no colon at all`; when the rest is
all whitespace the `[^:]+` part is satisfied by trailing whitespace). -/
def pSysTail (cs : List Char) : Bool :=
  1 ≤ (cs.takeWhile pyIsSpace).length && 2 ≤ cs.length &&
  !((cs.dropWhile pyIsSpace).contains ':')

/-- The regex `_FMT_B_SYS = ^_DATE,\s*_TIME\s+-\s+[^:]+$` (match as a
Boolean; the pattern has no groups). -/
def matchFmtBSys (cs : List Char) : Bool :=
  match pFmtBDash cs with
  | none => false
  | some (_, _, r) => pSysTail r

/-- `needle` occurs as a contiguous substring of the list. -/
def hasSub (needle : List Char) : List Char → Bool
  | [] => needle.isEmpty
  | c :: rest => needle.isPrefixOf (c :: rest) || hasSub needle rest

/-- One media token body (the characters between `<` and the first
following `>`): it satisfies `[^>]*(?:omitted|attached)[^>]*` under
`re.IGNORECASE` iff its ASCII-lowercased form contains `omitted` or
`attached`. -/
def mediaHit (middle : List Char) : Bool :=
  hasSub "omitted".data (middle.map Char.toLower) ||
  hasSub "attached".data (middle.map Char.toLower)

/-- `MEDIA_OMITTED.search`: the regex `<[^>]*(?:omitted|attached)[^>]*>`
(case-insensitive) matches somewhere in the text.  Any match runs from
some `<` to the first `>` after it (the body class excludes `>`), so
searching each `<` against the first following `>` is exhaustive. -/
def mediaSearch : List Char → Bool
  | [] => false
  | '<' :: rest =>
      (decide ((rest.takeWhile (· ≠ '>')).length < rest.length)
        && mediaHit (rest.takeWhile (· ≠ '>')))
      || mediaSearch rest
  | _ :: rest => mediaSearch rest

/-- `_parse_fmt_a` (main.py lines 247-252): match `_FMT_A` and return
`time.strip(), date.strip(), sender.strip(), text`. -/
def parse_fmt_a (line : String) : Option (String × String × String × String) :=
  match matchFmtA line.data with
  | none => none
  | some (t, d, s, x) => some (⟨pyStripL t⟩, ⟨pyStripL d⟩, ⟨pyStripL s⟩, ⟨x⟩)

/-- The numeric value of an ASCII digit string (`int(y)` for the 2-digit
year group). -/
def digitsToNat (s : String) : Nat :=
  s.data.foldl (fun n c => 10 * n + (c.toNat - '0'.toNat)) 0

/-- `_expand_year` (main.py lines 255-258). -/
def expand_year (y : String) : String :=
  if y.length = 2 then (if digitsToNat y ≤ 30 then "20" else "19") ++ y else y

/-- `re.split(r"[/.\-]", date)`: split on every separator occurrence. -/
def splitSeps : List Char → List (List Char)
  | [] => [[]]
  | c :: rest =>
    if isSepChar c then [] :: splitSeps rest
    else
      match splitSeps rest with
      | l :: ls => (c :: l) :: ls
      | [] => [[c]]

/-- The date normalization of `_parse_fmt_b` (main.py lines 266-269):
split the captured day-first date, and when it has three parts reorder
to month-first with the year expanded. -/
def normDateB (date : String) : String :=
  match splitSeps date.data with
  | [d, mo, y] => ⟨mo⟩ ++ "/" ++ (⟨d⟩ : String) ++ "/" ++ expand_year ⟨y⟩
  | _ => date

/-- `_parse_fmt_b` (main.py lines 261-270): match `_FMT_B`, reorder the
day-first date to month-first, and return
`time.strip(), date.strip(), sender.strip(), text`. -/
def parse_fmt_b (line : String) : Option (String × String × String × String) :=
  match matchFmtB line.data with
  | none => none
  | some (d, t, s, x) =>
      some (⟨pyStripL t⟩, pyStrip (normDateB ⟨d⟩), ⟨pyStripL s⟩, ⟨x⟩)

/-- `_FMT_B_SYS.match` on a line (the pattern is defined in main.py
lines 242-244; `parse_chat` itself never consults it). -/
def fmt_b_sys (line : String) : Bool := matchFmtBSys line.data

/-- The count of lines matching `_FMT_A` (main.py line 275). -/
def countFmtA (lines : List String) : Nat :=
  (lines.filter (fun l => (matchFmtA l.data).isSome)).length

/-- The count of lines matching `_FMT_B` (main.py line 276). -/
def countFmtB (lines : List String) : Nat :=
  (lines.filter (fun l => (matchFmtB l.data).isSome)).length

/-- `_detect_dominant_format` (main.py lines 273-277). -/
def detect_dominant_format (lines : List String) : String :=
  if countFmtA lines ≥ countFmtB lines then "A" else "B"

/-- `Message` (main.py lines 207-212). -/
structure Message where
  time : String
  date : String
  sender : String
  text : String
  is_media : Bool
deriving DecidableEq, Repr

/-- `ParsedChat` (main.py lines 215-218). -/
structure ParsedChat where
  messages : List Message
  participants : List String
  title : Option String
deriving DecidableEq, Repr

/-- The loop state of `parse_chat`: the emitted messages, the (insertion
ordered, duplicate-free) participant set, and the open current message. -/
structure ParseState where
  msgs : List Message
  parts : List String
  cur : Option Message
deriving DecidableEq, Repr

/-- `participants.add(sender)` on the list model of the Python set. -/
def addParticipant (parts : List String) (s : String) : List String :=
  if s ∈ parts then parts else parts ++ [s]

/-- One iteration of the line loop of `parse_chat`
(main.py lines 292-316), parameterized by the primary and secondary
line matchers. -/
def stepFn (primFn secFn : String → Option (String × String × String × String))
    (st : ParseState) (line : String) : ParseState :=
  match primFn line with
  | some (t, d, s, x) =>
      { msgs := st.msgs ++ st.cur.toList
        parts := addParticipant st.parts s
        cur := some ⟨t, d, s, pyStrip x, mediaSearch x.data⟩ }
  | none =>
    match st.cur with
    | none => st
    | some c =>
      if pyStrip line = "" then st
      else
        match secFn line with
        | some (_, _, ss, sx) =>
            { st with cur := some { c with text := c.text ++ "\n" ++ ss ++ ": " ++ pyStrip sx } }
        | none =>
            { st with cur := some { c with text := c.text ++ "\n" ++ line } }

/-- `content.replace("\r\n", "\n").replace("\r", "\n")` fused into one
pass: a `\r\n` pair and a lone `\r` both become `\n`. -/
def normNewlines : List Char → List Char
  | [] => []
  | '\r' :: '\n' :: rest => '\n' :: normNewlines rest
  | '\r' :: rest => '\n' :: normNewlines rest
  | c :: rest => c :: normNewlines rest

/-- `content.split("\n")` (keeps empty pieces; the empty text yields
one empty line, as in Python). -/
def splitLines : List Char → List (List Char)
  | [] => [[]]
  | '\n' :: rest => [] :: splitLines rest
  | c :: rest =>
    match splitLines rest with
    | l :: ls => (c :: l) :: ls
    | [] => [[c]]

/-- The preprocessing of `parse_chat` (main.py lines 281-282): strip
leading byte-order marks, normalize line endings, split into lines. -/
def preprocess (content : String) : List String :=
  (splitLines (normNewlines (content.data.dropWhile (· = '\uFEFF')))).map
    (fun l => ⟨l⟩)

/-- The primary line matcher chosen by `parse_chat` (main.py line 285). -/
def primaryOf (dominant : String) :
    String → Option (String × String × String × String) :=
  if dominant = "A" then parse_fmt_a else parse_fmt_b

/-- The secondary line matcher chosen by `parse_chat` (main.py line 286). -/
def secondaryOf (dominant : String) :
    String → Option (String × String × String × String) :=
  if dominant = "A" then parse_fmt_b else parse_fmt_a

/-- `parse_chat` (main.py lines 280-325). -/
def parse_chat (content : String) : ParsedChat :=
  let lines := preprocess content
  let dominant := detect_dominant_format lines
  let st := lines.foldl (stepFn (primaryOf dominant) (secondaryOf dominant))
    ⟨[], [], none⟩
  { messages := st.msgs ++ st.cur.toList
    participants := List.insertionSort (· ≤ ·) st.parts
    title := none }

/-- Sender closure invariant of the line loop: every registered
participant is the sender of an emitted message or of the open current
message. -/
def SenderClosure (st : ParseState) : Prop :=
  ∀ p ∈ st.parts, (∃ m ∈ st.msgs, m.sender = p) ∨ ∃ c, st.cur = some c ∧ c.sender = p

/-- Trimmed-sender invariant of the line loop: the sender of every
emitted message and of the open current message is `strip`-fixed. -/
def TrimmedSenders (st : ParseState) : Prop :=
  (∀ m ∈ st.msgs, pyStrip m.sender = m.sender) ∧
  ∀ c, st.cur = some c → pyStrip c.sender = c.sender

section Lemmas

theorem dropWhile_dropWhile {α : Type} (p : α → Bool) (l : List α) :
    (l.dropWhile p).dropWhile p = l.dropWhile p := by
  induction l with
  | nil => rfl
  | cons c rest ih =>
    cases h : p c <;> simp [List.dropWhile_cons, h, ih]

theorem length_dropWhile_le {α : Type} (p : α → Bool) (l : List α) :
    (l.dropWhile p).length ≤ l.length := by
  induction l with
  | nil => simp
  | cons c rest ih =>
    cases h : p c
    · simp [List.dropWhile_cons, h]
    · simp [List.dropWhile_cons, h]
      omega

theorem dropWhile_eq_self_append {α : Type} (p : α → Bool) (b s : List α)
    (h : (b ++ s).dropWhile p = b ++ s) : b.dropWhile p = b := by
  cases b with
  | nil => rfl
  | cons c b' =>
    cases hc : p c with
    | false => simp [List.dropWhile_cons, hc]
    | true =>
      exfalso
      rw [List.cons_append, List.dropWhile_cons, hc, if_pos rfl] at h
      have hlen := length_dropWhile_le p (b' ++ s)
      rw [h] at hlen
      simp at hlen

theorem pyStripL_idem (l : List Char) : pyStripL (pyStripL l) = pyStripL l := by
  unfold pyStripL
  set p := pyIsSpace with hp
  set a := l.dropWhile p with ha
  have haa : a.dropWhile p = a := by rw [ha]; exact dropWhile_dropWhile p l
  set b := (a.reverse.dropWhile p).reverse with hb
  have hsplit : a = b ++ (a.reverse.takeWhile p).reverse := by
    rw [hb, ← List.reverse_append, List.takeWhile_append_dropWhile, List.reverse_reverse]
  have hbfix : b.dropWhile p = b := by
    apply dropWhile_eq_self_append p b _ (hsplit ▸ haa)
  rw [hbfix]
  have : b.reverse.dropWhile p = b.reverse := by
    rw [hb, List.reverse_reverse]
    exact dropWhile_dropWhile p a.reverse
  rw [this, List.reverse_reverse]

theorem pyStrip_idem (s : String) : pyStrip (pyStrip s) = pyStrip s := by
  unfold pyStrip
  exact congrArg String.mk (pyStripL_idem s.data)

theorem pDigits_head (lo hi : Nat) (cs g : List Char) (r : List Char)
    (hlo : 1 ≤ lo) (h : pDigits lo hi cs = some (g, r)) :
    ∃ c rest, cs = c :: rest ∧ c.isDigit = true := by
  unfold pDigits takeDigits at h
  cases cs with
  | nil => simp at h; omega
  | cons c rest =>
    cases hc : c.isDigit with
    | true => exact ⟨c, rest, rfl, hc⟩
    | false => simp [List.takeWhile_cons, hc] at h; omega

theorem pFmtBDash_head (cs : List Char) (r : List Char × List Char × List Char)
    (h : pFmtBDash cs = some r) : ∃ c rest, cs = c :: rest ∧ c.isDigit = true := by
  unfold pFmtBDash at h
  cases hd : pDate cs with
  | none => rw [hd] at h; exact absurd h (by simp)
  | some v =>
    obtain ⟨dc, drest⟩ := v
    unfold pDate at hd
    cases hg : pDigits 1 2 cs with
    | none => rw [hg] at hd; exact absurd hd (by simp)
    | some w => exact pDigits_head 1 2 cs w.1 w.2 (by omega) hg

theorem matchFmtB_head (cs : List Char) (r : List Char × List Char × List Char × List Char)
    (h : matchFmtB cs = some r) : ∃ c rest, cs = c :: rest ∧ c.isDigit = true := by
  unfold matchFmtB at h
  cases hd : pFmtBDash cs with
  | none => rw [hd] at h; exact absurd h (by simp)
  | some v => exact pFmtBDash_head cs v hd

theorem matchFmtA_head (cs : List Char) (r : List Char × List Char × List Char × List Char)
    (h : matchFmtA cs = some r) : ∃ rest, cs = '[' :: rest := by
  unfold matchFmtA at h
  cases cs with
  | nil => simp [pLit] at h
  | cons c rest =>
    by_cases hc : c = '['
    · exact ⟨rest, by rw [hc]⟩
    · simp [pLit, hc] at h

theorem fmtA_fmtB_never_both (cs : List Char) :
    (matchFmtA cs).isSome = false ∨ (matchFmtB cs).isSome = false := by
  by_contra hcon
  push_neg at hcon
  obtain ⟨ha, hb⟩ := hcon
  rw [Bool.ne_false_iff, Option.isSome_iff_exists] at ha hb
  obtain ⟨ra, ha⟩ := ha
  obtain ⟨rb, hb⟩ := hb
  obtain ⟨resta, hla⟩ := matchFmtA_head cs ra ha
  obtain ⟨c, restb, hlb, hdig⟩ := matchFmtB_head cs rb hb
  rw [hla] at hlb
  injection hlb with h1 h2
  rw [← h1] at hdig
  exact absurd hdig (by decide)

end Lemmas

/-- Claim C2: dominant-format detection counts, over all lines, those
matching Grammar A (`_FMT_A`) and those matching Grammar B (`_FMT_B`),
and selects Grammar A exactly when the A-count is at least the B-count;
in particular exactly equal counts give Grammar A. -/
theorem dominant_format_tiebreak (lines : List String) :
    (detect_dominant_format lines = "A" ↔ countFmtB lines ≤ countFmtA lines) ∧
    (countFmtA lines = countFmtB lines → detect_dominant_format lines = "A") := by
  refine ⟨⟨?_, ?_⟩, ?_⟩
  · intro hA
    by_contra hlt
    push_neg at hlt
    unfold detect_dominant_format at hA
    rw [if_neg (by omega)] at hA
    exact absurd hA (by decide)
  · intro h
    unfold detect_dominant_format
    rw [if_pos h]
  · intro h
    unfold detect_dominant_format
    rw [if_pos (le_of_eq h.symm)]

/-- Witness for C2: a document with exactly one Grammar-A line and one
Grammar-B line has equal counts, and Grammar A is selected. -/
theorem dominant_format_tiebreak_witness :
    detect_dominant_format ["[9:09, 1/1/20] A: x", "1/1/20, 9:09 - B: y"] = "A" :=
  (dominant_format_tiebreak _).2 (by decide)

/-- Claim C10: the Grammar A matcher only matches lines beginning with
an opening bracket, the Grammar B matcher only lines beginning with a
digit, so no line matches both, and the two counts of the dominant
format detection sum to at most the number of lines. -/
theorem grammars_mutually_exclusive :
    (∀ cs r, matchFmtA cs = some r → ∃ rest, cs = '[' :: rest) ∧
    (∀ cs r, matchFmtB cs = some r → ∃ c rest, cs = c :: rest ∧ c.isDigit = true) ∧
    (∀ cs, (matchFmtA cs).isSome = false ∨ (matchFmtB cs).isSome = false) ∧
    ∀ lines, countFmtA lines + countFmtB lines ≤ lines.length := by
  refine ⟨matchFmtA_head, matchFmtB_head, fmtA_fmtB_never_both, ?_⟩
  intro lines
  induction lines with
  | nil => simp [countFmtA, countFmtB]
  | cons l ls ih =>
    have hd := fmtA_fmtB_never_both l.data
    unfold countFmtA countFmtB at ih ⊢
    rw [List.filter_cons, List.filter_cons]
    rcases hd with h | h <;> rw [h] <;>
      cases hother : ((matchFmtB l.data).isSome : Bool) <;>
      cases hother2 : ((matchFmtA l.data).isSome : Bool) <;>
      simp_all <;> omega

/-- Witness for C10: the implications instantiated on a concrete
Grammar-A line and a concrete Grammar-B line. -/
theorem grammars_mutually_exclusive_witness :
    (∃ rest, ("[9:09, 1/1/20] B: x" : String).data = '[' :: rest) ∧
    ∃ c rest, ("1/1/20, 9:09 - B: x" : String).data = c :: rest ∧ c.isDigit = true := by
  refine ⟨grammars_mutually_exclusive.1 _ ("9:09".data, "1/1/20".data, "B".data, "x".data) ?_,
          grammars_mutually_exclusive.2.1 _ ("1/1/20".data, "9:09".data, "B".data, "x".data) ?_⟩ <;>
    decide

theorem foldl_stepFn_all_none
    (pf sf : String → Option (String × String × String × String))
    (lines : List String) (h : ∀ l ∈ lines, pf l = none) :
    lines.foldl (stepFn pf sf) ⟨[], [], none⟩ = ⟨[], [], none⟩ := by
  induction lines with
  | nil => rfl
  | cons l ls ih =>
    rw [List.foldl_cons]
    have h1 : pf l = none := h l (by simp)
    have h2 : stepFn pf sf ⟨[], [], none⟩ l = ⟨[], [], none⟩ := by
      simp [stepFn, h1]
    rw [h2]
    exact ih fun l' hl' => h l' (by simp [hl'])

/-- Claim C1: `parse_chat` is a total function of the input text (the
embedding is a Lean function, so it returns on every input), and any
input none of whose lines matches either grammar -- in particular the
empty string -- yields an empty message list and empty participants. -/
theorem parse_chat_no_match_empty (content : String)
    (h : ∀ l ∈ preprocess content, parse_fmt_a l = none ∧ parse_fmt_b l = none) :
    parse_chat content = ⟨[], [], none⟩ ∧ parse_chat "" = ⟨[], [], none⟩ := by
  refine ⟨?_, by decide⟩
  have hpf : ∀ l ∈ preprocess content,
      primaryOf (detect_dominant_format (preprocess content)) l = none := by
    intro l hl
    unfold primaryOf
    split
    · exact (h l hl).1
    · exact (h l hl).2
  simp only [parse_chat]
  rw [foldl_stepFn_all_none _ _ _ hpf]
  rfl

/-- Witness for C1: a two-line input with no recognizable line parses to
the empty transcript. -/
theorem parse_chat_no_match_empty_witness :
    parse_chat "hello\nworld" = ⟨[], [], none⟩ ∧ parse_chat "" = ⟨[], [], none⟩ :=
  parse_chat_no_match_empty "hello\nworld" (by decide)

theorem pSysTail_no_colon (cs : List Char) (h : pSysTail cs = true) :
    ∀ x ∈ cs, x ≠ ':' := by
  unfold pSysTail at h
  simp only [Bool.and_eq_true, Bool.not_eq_true'] at h
  obtain ⟨-, hcol⟩ := h
  intro x hx hne
  subst hne
  rw [← List.takeWhile_append_dropWhile (p := pyIsSpace) (l := cs),
    List.mem_append] at hx
  rcases hx with hx | hx
  · exact absurd (List.mem_takeWhile_imp hx) (by decide)
  · rw [show ((cs.dropWhile pyIsSpace).contains ':') = (cs.dropWhile pyIsSpace).elem ':'
      from rfl, List.elem_eq_true_of_mem hx] at hcol
    exact absurd hcol (by decide)

theorem matchFmtB_none_of_sys (cs : List Char) (h : matchFmtBSys cs = true) :
    matchFmtB cs = none := by
  unfold matchFmtBSys at h
  unfold matchFmtB
  cases hd : pFmtBDash cs with
  | none => rfl
  | some v =>
    obtain ⟨d, t, r⟩ := v
    rw [hd] at h
    have hnc : r.findIdx? (· = ':') = none := by
      rw [List.findIdx?_eq_none_iff]
      intro x hx
      exact decide_eq_false (pSysTail_no_colon r h x hx)
    simp only [pSenderText, hnc]

/-- Claim C9: a line matched by the Grammar-B system pattern
(`_FMT_B_SYS`: date/time prefix, dash, no colon afterwards) matches
neither `_FMT_A` nor `_FMT_B`, hence never starts a `Message` and is
never emitted as a senderless `Message`: whichever grammar is primary,
the loop step leaves the emitted messages and the participants
unchanged, and drops the line entirely when no message is open. -/
theorem sys_line_never_starts_message (line : String) (h : fmt_b_sys line = true) :
    parse_fmt_a line = none ∧ parse_fmt_b line = none ∧
    (∀ st, (stepFn parse_fmt_a parse_fmt_b st line).msgs = st.msgs ∧
           (stepFn parse_fmt_a parse_fmt_b st line).parts = st.parts ∧
           (st.cur = none → stepFn parse_fmt_a parse_fmt_b st line = st)) ∧
    ∀ st, (stepFn parse_fmt_b parse_fmt_a st line).msgs = st.msgs ∧
          (stepFn parse_fmt_b parse_fmt_a st line).parts = st.parts ∧
          (st.cur = none → stepFn parse_fmt_b parse_fmt_a st line = st) := by
  unfold fmt_b_sys at h
  have hb : matchFmtB line.data = none := matchFmtB_none_of_sys line.data h
  have ha : matchFmtA line.data = none := by
    unfold matchFmtBSys at h
    cases hd : pFmtBDash line.data with
    | none => rw [hd] at h; exact absurd h (by simp)
    | some v =>
      obtain ⟨c, rest, hcs, hdig⟩ := pFmtBDash_head line.data v hd
      unfold matchFmtA
      rw [hcs]
      have : c ≠ '[' := by
        intro hlb
        rw [hlb] at hdig
        exact absurd hdig (by decide)
      simp [pLit, this]
  have hpa : parse_fmt_a line = none := by unfold parse_fmt_a; rw [ha]
  have hpb : parse_fmt_b line = none := by unfold parse_fmt_b; rw [hb]
  refine ⟨hpa, hpb, ?_, ?_⟩ <;>
    · intro st
      cases hcur : st.cur with
      | none => simp [stepFn, hpa, hpb, hcur]
      | some c =>
        by_cases hblank : pyStrip line = "" <;>
          simp [stepFn, hpa, hpb, hcur, hblank]

/-- Witness for C9: the join notice `"1/1/20, 9:09 - Alice joined"`
matches the system pattern and neither grammar. -/
theorem sys_line_never_starts_message_witness :
    parse_fmt_a "1/1/20, 9:09 - Alice joined" = none ∧
    parse_fmt_b "1/1/20, 9:09 - Alice joined" = none ∧
    stepFn parse_fmt_a parse_fmt_b ⟨[], [], none⟩ "1/1/20, 9:09 - Alice joined" =
      ⟨[], [], none⟩ := by
  have h := sys_line_never_starts_message "1/1/20, 9:09 - Alice joined" (by decide)
  exact ⟨h.1, h.2.1, (h.2.2.1 ⟨[], [], none⟩).2.2 rfl⟩


theorem pDigits_all_digits (lo hi : Nat) (cs g r : List Char)
    (h : pDigits lo hi cs = some (g, r)) : ∀ c ∈ g, c.isDigit = true := by
  unfold pDigits at h
  split at h
  · rw [Option.some.injEq] at h
    intro c hc
    have hg : List.takeWhile Char.isDigit cs = g := congrArg Prod.fst h
    rw [← hg] at hc
    exact List.mem_takeWhile_imp hc
  · exact absurd h (by simp)

theorem splitSeps_nosep (g : List Char) (hg : ∀ c ∈ g, isSepChar c = false) :
    splitSeps g = [g] := by
  induction g with
  | nil => rfl
  | cons c g' ih =>
    have hc : isSepChar c = false := hg c (by simp)
    have ih' := ih fun c' hc' => hg c' (by simp [hc'])
    simp [splitSeps, hc, ih']

theorem splitSeps_sep_append (g : List Char) (hg : ∀ c ∈ g, isSepChar c = false)
    (s : Char) (hs : isSepChar s = true) (rest : List Char) :
    splitSeps (g ++ s :: rest) = g :: splitSeps rest := by
  induction g with
  | nil => simp [splitSeps, hs]
  | cons c g' ih =>
    have hc : isSepChar c = false := hg c (by simp)
    have ih' := ih fun c' hc' => hg c' (by simp [hc'])
    simp [splitSeps, hc, ih']

theorem digit_not_sep (c : Char) (h : c.isDigit = true) : isSepChar c = false := by
  unfold isSepChar
  by_contra hc
  rw [Bool.not_eq_false, Bool.or_eq_true, Bool.or_eq_true] at hc
  rcases hc with (h1 | h1) | h1 <;>
    · rw [decide_eq_true_iff] at h1
      subst h1
      exact absurd h (by decide)

theorem pDate_decomp (cs dcap rest : List Char) (h : pDate cs = some (dcap, rest)) :
    ∃ g1 s1 g2 s2 g3,
      dcap = g1 ++ s1 :: g2 ++ s2 :: g3 ∧
      (∀ c ∈ g1, c.isDigit = true) ∧ (∀ c ∈ g2, c.isDigit = true) ∧
      (∀ c ∈ g3, c.isDigit = true) ∧
      isSepChar s1 = true ∧ isSepChar s2 = true := by
  unfold pDate at h
  split at h
  · exact absurd h (by simp)
  · rename_i g1 r1 heq1
    split at h
    · exact absurd h (by simp)
    · rename_i s1 r2
      split at h
      · rename_i hs1
        split at h
        · exact absurd h (by simp)
        · rename_i g2 r3 heq2
          split at h
          · exact absurd h (by simp)
          · rename_i s2 r4
            split at h
            · rename_i hs2
              split at h
              · exact absurd h (by simp)
              · rename_i g3 r5 heq3
                rw [Option.some.injEq, Prod.mk.injEq] at h
                exact ⟨g1, s1, g2, s2, g3, h.1.symm,
                  pDigits_all_digits 1 2 cs g1 (s1 :: r2) heq1,
                  pDigits_all_digits 1 2 r2 g2 (s2 :: r4) heq2,
                  pDigits_all_digits 2 4 r4 g3 r5 heq3, hs1, hs2⟩
            · exact absurd h (by simp)
      · exact absurd h (by simp)

theorem normDateB_reorder (g1 g2 g3 : List Char) (s1 s2 : Char)
    (hg1 : ∀ c ∈ g1, c.isDigit = true) (hg2 : ∀ c ∈ g2, c.isDigit = true)
    (hg3 : ∀ c ∈ g3, c.isDigit = true)
    (hs1 : isSepChar s1 = true) (hs2 : isSepChar s2 = true) :
    normDateB ⟨g1 ++ s1 :: g2 ++ s2 :: g3⟩ =
      (⟨g2⟩ : String) ++ "/" ++ (⟨g1⟩ : String) ++ "/" ++ expand_year ⟨g3⟩ := by
  have hsplit : splitSeps (g1 ++ s1 :: g2 ++ s2 :: g3) = [g1, g2, g3] := by
    rw [List.append_assoc, List.cons_append,
      splitSeps_sep_append g1 (fun c hc => digit_not_sep c (hg1 c hc)) s1 hs1,
      splitSeps_sep_append g2 (fun c hc => digit_not_sep c (hg2 c hc)) s2 hs2,
      splitSeps_nosep g3 (fun c hc => digit_not_sep c (hg3 c hc))]
  unfold normDateB
  rw [show (String.mk (g1 ++ s1 :: g2 ++ s2 :: g3)).data = g1 ++ s1 :: g2 ++ s2 :: g3
    from rfl]
  rw [hsplit]

theorem matchFmtB_date_group (cs dc tc sc xc : List Char)
    (h : matchFmtB cs = some (dc, tc, sc, xc)) :
    ∃ rest, pDate cs = some (dc, rest) := by
  unfold matchFmtB at h
  split at h
  · exact absurd h (by simp)
  · rename_i d t r heq
    split at h
    · exact absurd h (by simp)
    · rename_i s x
      rw [Option.some.injEq, Prod.mk.injEq, Prod.mk.injEq, Prod.mk.injEq] at h
      obtain ⟨hdc, -, -, -⟩ := h
      unfold pFmtBDash at heq
      split at heq
      · exact absurd heq (by simp)
      · rename_i d0 r1 heq0
        split at heq
        · exact absurd heq (by simp)
        · rename_i r2
          split at heq
          · exact absurd heq (by simp)
          · rename_i t0 r3
            split at heq
            · exact absurd heq (by simp)
            · rename_i r4
              split at heq
              · exact absurd heq (by simp)
              · rename_i r5
                rw [Option.some.injEq, Prod.mk.injEq, Prod.mk.injEq] at heq
                obtain ⟨hd0, -, -⟩ := heq
                exact ⟨r1, by rw [heq0, hd0, hdc]⟩

/-- Claim C4: every Grammar-B match reorders the captured day-first date
to month-first (day and month digit groups swapped, year last), with a
2-digit year expanded through the pivot `yy <= 30` to `20yy`, else
`19yy`; the year examples "29" to "2029", "31" to "1931",
"30" to "2030" hold, and the line "03/12/2025, 15:29 - Alice: hi"
parses to date "12/03/2025" and time "15:29". -/
theorem fmt_b_date_reorder :
    (∀ (line : String) t d s x, parse_fmt_b line = some (t, d, s, x) →
      ∃ g1 s1 g2 s2 g3,
        (∀ c ∈ g1, c.isDigit = true) ∧ (∀ c ∈ g2, c.isDigit = true) ∧
        (∀ c ∈ g3, c.isDigit = true) ∧ isSepChar s1 = true ∧ isSepChar s2 = true ∧
        d = pyStrip ((⟨g2⟩ : String) ++ "/" ++ (⟨g1⟩ : String) ++ "/" ++ expand_year ⟨g3⟩)) ∧
    expand_year "29" = "2029" ∧ expand_year "31" = "1931" ∧ expand_year "30" = "2030" ∧
    (parse_chat "03/12/2025, 15:29 - Alice: hi").messages =
      [⟨"15:29", "12/03/2025", "Alice", "hi", false⟩] := by
  refine ⟨?_, by decide, by decide, by decide, by decide⟩
  intro line t d s x h
  unfold parse_fmt_b at h
  split at h
  · exact absurd h (by simp)
  · rename_i dc tc sc xc heqm
    rw [Option.some.injEq, Prod.mk.injEq, Prod.mk.injEq, Prod.mk.injEq] at h
    obtain ⟨-, hd, -, -⟩ := h
    obtain ⟨drest, hpd⟩ := matchFmtB_date_group line.data dc tc sc xc heqm
    obtain ⟨g1, s1, g2, s2, g3, hcap, hd1, hd2, hd3, hsep1, hsep2⟩ :=
      pDate_decomp line.data dc drest hpd
    refine ⟨g1, s1, g2, s2, g3, hd1, hd2, hd3, hsep1, hsep2, ?_⟩
    rw [← hd, show (⟨dc⟩ : String) = ⟨g1 ++ s1 :: g2 ++ s2 :: g3⟩ by rw [hcap],
      normDateB_reorder g1 g2 g3 s1 s2 hd1 hd2 hd3 hsep1 hsep2]

/-- Witness for C4: the reorder equation instantiated on the matched
line `"03/12/2025, 15:29 - Alice: hi"`. -/
theorem fmt_b_date_reorder_witness :
    ∃ g1 s1 g2 s2 g3,
      (∀ c ∈ g1, c.isDigit = true) ∧ (∀ c ∈ g2, c.isDigit = true) ∧
      (∀ c ∈ g3, c.isDigit = true) ∧ isSepChar s1 = true ∧ isSepChar s2 = true ∧
      "12/03/2025" =
        pyStrip ((⟨g2⟩ : String) ++ "/" ++ (⟨g1⟩ : String) ++ "/" ++ expand_year ⟨g3⟩) :=
  fmt_b_date_reorder.1 "03/12/2025, 15:29 - Alice: hi" "15:29" "12/03/2025" "Alice" "hi"
    (by decide)

theorem parse_fmt_a_sender_strip (line t d s x : String)
    (h : parse_fmt_a line = some (t, d, s, x)) : pyStrip s = s := by
  unfold parse_fmt_a at h
  split at h
  · exact absurd h (by simp)
  · rename_i t0 d0 s0 x0
    rw [Option.some.injEq, Prod.mk.injEq, Prod.mk.injEq, Prod.mk.injEq] at h
    obtain ⟨-, -, hs, -⟩ := h
    rw [← hs]
    exact congrArg String.mk (pyStripL_idem _)

theorem parse_fmt_b_sender_strip (line t d s x : String)
    (h : parse_fmt_b line = some (t, d, s, x)) : pyStrip s = s := by
  unfold parse_fmt_b at h
  split at h
  · exact absurd h (by simp)
  · rename_i d0 t0 s0 x0
    rw [Option.some.injEq, Prod.mk.injEq, Prod.mk.injEq, Prod.mk.injEq] at h
    obtain ⟨-, -, hs, -⟩ := h
    rw [← hs]
    exact congrArg String.mk (pyStripL_idem _)

theorem stepFn_trimmed (pf sf : String → Option (String × String × String × String))
    (hpf : ∀ l t d s x, pf l = some (t, d, s, x) → pyStrip s = s)
    (st : ParseState) (line : String) (h : TrimmedSenders st) :
    TrimmedSenders (stepFn pf sf st line) := by
  obtain ⟨hm, hc⟩ := h
  cases hp : pf line with
  | some v =>
    obtain ⟨t, d, s, x⟩ := v
    refine ⟨?_, ?_⟩
    · intro m hmem
      simp only [stepFn, hp, List.mem_append] at hmem
      rcases hmem with hmem | hmem
      · exact hm m hmem
      · cases hcur : st.cur with
        | none => rw [hcur] at hmem; exact absurd hmem (by simp)
        | some c0 =>
          rw [hcur] at hmem
          simp only [Option.toList_some, List.mem_singleton] at hmem
          rw [hmem]
          exact hc c0 hcur
    · intro c' hcur'
      simp only [stepFn, hp, Option.some.injEq] at hcur'
      rw [← hcur']
      exact hpf line t d s x hp
  | none =>
    cases hcur : st.cur with
    | none =>
      have : stepFn pf sf st line = st := by simp [stepFn, hp, hcur]
      rw [this]
      exact ⟨hm, hc⟩
    | some c0 =>
      by_cases hb : pyStrip line = ""
      · have : stepFn pf sf st line = st := by simp [stepFn, hp, hcur, hb]
        rw [this]
        exact ⟨hm, hc⟩
      · cases hs : sf line with
        | some v =>
          obtain ⟨t, d, s, x⟩ := v
          refine ⟨?_, ?_⟩
          · intro m hmem
            have hstep : (stepFn pf sf st line).msgs = st.msgs := by
              simp [stepFn, hp, hcur, hb, hs]
            rw [hstep] at hmem
            exact hm m hmem
          · intro c' hcur'
            have hstep : (stepFn pf sf st line).cur =
                some { c0 with text := c0.text ++ "\n" ++ s ++ ": " ++ pyStrip x } := by
              simp [stepFn, hp, hcur, hb, hs]
            rw [hstep, Option.some.injEq] at hcur'
            rw [← hcur']
            exact hc c0 hcur
        | none =>
          refine ⟨?_, ?_⟩
          · intro m hmem
            have hstep : (stepFn pf sf st line).msgs = st.msgs := by
              simp [stepFn, hp, hcur, hb, hs]
            rw [hstep] at hmem
            exact hm m hmem
          · intro c' hcur'
            have hstep : (stepFn pf sf st line).cur =
                some { c0 with text := c0.text ++ "\n" ++ line } := by
              simp [stepFn, hp, hcur, hb, hs]
            rw [hstep, Option.some.injEq] at hcur'
            rw [← hcur']
            exact hc c0 hcur

theorem foldl_trimmed (pf sf : String → Option (String × String × String × String))
    (hpf : ∀ l t d s x, pf l = some (t, d, s, x) → pyStrip s = s)
    (lines : List String) (st : ParseState) (h : TrimmedSenders st) :
    TrimmedSenders (lines.foldl (stepFn pf sf) st) := by
  induction lines generalizing st with
  | nil => exact h
  | cons l ls ih =>
    rw [List.foldl_cons]
    exact ih _ (stepFn_trimmed pf sf hpf st l h)

/-- Counterexample to C5: the Grammar-A line `"[9:09, 1/1/20]  : hi"`
(two spaces before the colon) matches with a whitespace-only sender
capture, which strips to the empty sender, so the output does contain a
`Message` with an empty `sender`. -/
theorem sender_can_be_empty :
    ¬ (∀ m ∈ (parse_chat "[9:09, 1/1/20]  : hi").messages, m.sender ≠ "") := by
  decide

/-- Claim C5 (amended): every message sender is the whitespace-trimmed
sender capture of a primary-grammar match (so it never carries leading
or trailing whitespace), but it can be empty when the capture consists
entirely of whitespace, as in `"[9:09, 1/1/20]  : hi"`. -/
theorem senders_trimmed (content : String) :
    ∀ m ∈ (parse_chat content).messages, pyStrip m.sender = m.sender := by
  intro m hm
  simp only [parse_chat] at hm
  have hpf : ∀ l t d s x,
      primaryOf (detect_dominant_format (preprocess content)) l = some (t, d, s, x) →
      pyStrip s = s := by
    intro l t d s x h
    unfold primaryOf at h
    split at h
    · exact parse_fmt_a_sender_strip l t d s x h
    · exact parse_fmt_b_sender_strip l t d s x h
  have hinv := foldl_trimmed _
    (secondaryOf (detect_dominant_format (preprocess content))) hpf
    (preprocess content) ⟨[], [], none⟩ ⟨by simp, by simp⟩
  rw [List.mem_append] at hm
  rcases hm with hm | hm
  · exact hinv.1 m hm
  · cases hcur : ((preprocess content).foldl
        (stepFn (primaryOf (detect_dominant_format (preprocess content)))
          (secondaryOf (detect_dominant_format (preprocess content))))
        ⟨[], [], none⟩).cur with
    | none => rw [hcur] at hm; exact absurd hm (by simp)
    | some c0 =>
      rw [hcur] at hm
      simp only [Option.toList_some, List.mem_singleton] at hm
      rw [hm]
      exact hinv.2 c0 hcur

/-- Witness for the amended C5: the sender of the message parsed from
`"[9:09, 1/1/20] Bob: hi"` is strip-fixed. -/
theorem senders_trimmed_witness :
    pyStrip (Message.sender ⟨"9:09", "1/1/20", "Bob", "hi", false⟩) =
      Message.sender ⟨"9:09", "1/1/20", "Bob", "hi", false⟩ :=
  senders_trimmed "[9:09, 1/1/20] Bob: hi" ⟨"9:09", "1/1/20", "Bob", "hi", false⟩
    (by decide)

/-- Counterexample to C7: the captured body of
`"[9:09, 1/1/20] Bob: hi "` is `"hi "` (leading whitespace is already
consumed by the grammar), so removing leading whitespace only would
store `"hi "`; the parser stores `"hi"`: trailing whitespace is NOT
preserved. -/
theorem started_text_not_left_trim_only :
    parse_fmt_a "[9:09, 1/1/20] Bob: hi " = some ("9:09", "1/1/20", "Bob", "hi ") ∧
    (parse_chat "[9:09, 1/1/20] Bob: hi ").messages.map Message.text = ["hi"] ∧
    ("hi" : String) ≠ "hi " := by
  decide

/-- Claim C7 (amended): when a primary-grammar match starts a new
message, the stored text is the captured body with surrounding
whitespace removed on both sides (Python `str.strip`), not only on the
left. -/
theorem started_text_stripped
    (pf sf : String → Option (String × String × String × String))
    (st : ParseState) (line t d s x : String) (h : pf line = some (t, d, s, x)) :
    ((stepFn pf sf st line).cur).map Message.text = some (pyStrip x) := by
  simp [stepFn, h]

/-- Witness for the amended C7: the trailing-space body `"hi "` is
stored as `pyStrip "hi "`. -/
theorem started_text_stripped_witness :
    ((stepFn parse_fmt_a parse_fmt_b ⟨[], [], none⟩
        "[9:09, 1/1/20] Bob: hi ").cur).map Message.text = some (pyStrip "hi ") :=
  started_text_stripped parse_fmt_a parse_fmt_b ⟨[], [], none⟩
    "[9:09, 1/1/20] Bob: hi " "9:09" "1/1/20" "Bob" "hi " (by decide)

/-- Counterexample to C6: a continuation line `"<image omitted>"` is
folded into the message text, the final body matches the media pattern,
yet `is_media` stays `false` -- the flag reflects the starting line
only, not the final body text. -/
theorem is_media_not_from_continuation :
    (parse_chat "[9:09, 1/1/20] Bob: hi\n<image omitted>").messages =
      [⟨"9:09", "1/1/20", "Bob", "hi\n<image omitted>", false⟩] ∧
    mediaSearch ("hi\n<image omitted>" : String).data = true := by
  decide

/-- Claim C6 (amended): `is_media` is computed once, from the starting
line captured body, by the case-insensitive angle-bracket
omitted/attached search; continuation folding never changes it; the
body `"<image omitted>"` tests true and `"see you there"` tests
false. -/
theorem is_media_start_only
    (pf sf : String → Option (String × String × String × String))
    (st : ParseState) (line : String) :
    (∀ t d s x, pf line = some (t, d, s, x) →
      ((stepFn pf sf st line).cur).map Message.is_media = some (mediaSearch x.data)) ∧
    (pf line = none →
      ((stepFn pf sf st line).cur).map Message.is_media =
        st.cur.map Message.is_media) ∧
    mediaSearch ("<image omitted>" : String).data = true ∧
    mediaSearch ("see you there" : String).data = false := by
  refine ⟨?_, ?_, by decide, by decide⟩
  · intro t d s x h
    simp [stepFn, h]
  · intro h
    cases hcur : st.cur with
    | none => simp [stepFn, h, hcur]
    | some c =>
      by_cases hb : pyStrip line = ""
      · simp [stepFn, h, hcur, hb]
      · cases hs : sf line with
        | none => simp [stepFn, h, hcur, hb, hs]
        | some v =>
          obtain ⟨a, b, ss, sx⟩ := v
          simp [stepFn, h, hcur, hb, hs]

/-- Witness for the amended C6: folding `"<image omitted>"` into an open
non-media message leaves `is_media = false`. -/
theorem is_media_start_only_witness :
    ((stepFn parse_fmt_a parse_fmt_b
        ⟨[], ["Bob"], some ⟨"9:09", "1/1/20", "Bob", "hi", false⟩⟩
        "<image omitted>").cur).map Message.is_media = some false := by
  have h := (is_media_start_only parse_fmt_a parse_fmt_b
    ⟨[], ["Bob"], some ⟨"9:09", "1/1/20", "Bob", "hi", false⟩⟩
    "<image omitted>").2.1 (by decide)
  rw [h]
  rfl

/-- Counterexample to C3: the secondary-grammar line
`"1/1/20, 9:09 - Bob: hi "` captures secondary text `"hi "`, but the
folded continuation is `"\nBob: hi"`: the captured text is stripped
before being appended. -/
theorem continuation_strips_secondary_text :
    parse_fmt_b "1/1/20, 9:09 - Bob: hi " = some ("9:09", "1/1/2020", "Bob", "hi ") ∧
    (parse_chat "[9:09, 1/1/20] Ann: yo\n1/1/20, 9:09 - Bob: hi ").messages.map
      Message.text = ["yo\nBob: hi"] ∧
    ("yo\nBob: hi" : String) ≠ "yo" ++ "\n" ++ "Bob" ++ ": " ++ "hi " := by
  decide

/-- Claim C3 (amended): for a non-blank line that does not match the
primary grammar while a message is open: if the secondary grammar
matches, newline + secondary sender + ": " + the STRIPPED secondary
text is appended to the open message text; otherwise the raw line is
appended after a newline; blank lines change nothing; in every case the
emitted message list is unchanged (no new `Message` is created). -/
theorem continuation_folding
    (pf sf : String → Option (String × String × String × String))
    (st : ParseState) (c : Message) (line : String)
    (hc : st.cur = some c) (hp : pf line = none) :
    (pyStrip line = "" → stepFn pf sf st line = st) ∧
    (∀ t d s x, pyStrip line ≠ "" → sf line = some (t, d, s, x) →
      stepFn pf sf st line =
        ⟨st.msgs, st.parts,
          some { c with text := c.text ++ "\n" ++ s ++ ": " ++ pyStrip x }⟩) ∧
    (pyStrip line ≠ "" → sf line = none →
      stepFn pf sf st line =
        ⟨st.msgs, st.parts, some { c with text := c.text ++ "\n" ++ line }⟩) := by
  refine ⟨?_, ?_, ?_⟩
  · intro hb
    simp [stepFn, hp, hc, hb]
  · intro t d s x hb hs
    simp [stepFn, hp, hc, hb, hs]
  · intro hb hs
    simp [stepFn, hp, hc, hb, hs]

/-- Witness for the amended C3: folding `"1/1/20, 9:09 - Bob: hi "`
into the open message `"yo"` yields text `"yo\nBob: hi"` and no new
message. -/
theorem continuation_folding_witness :
    stepFn parse_fmt_a parse_fmt_b
        ⟨[], ["Ann"], some ⟨"9:09", "1/1/20", "Ann", "yo", false⟩⟩
        "1/1/20, 9:09 - Bob: hi " =
      ⟨[], ["Ann"], some ⟨"9:09", "1/1/20", "Ann", "yo\nBob: hi", false⟩⟩ := by
  have h := (continuation_folding parse_fmt_a parse_fmt_b
    ⟨[], ["Ann"], some ⟨"9:09", "1/1/20", "Ann", "yo", false⟩⟩
    ⟨"9:09", "1/1/20", "Ann", "yo", false⟩ "1/1/20, 9:09 - Bob: hi " rfl
    (by decide)).2.1 "9:09" "1/1/2020" "Bob" "hi " (by decide) (by decide)
  rw [h]
  decide

theorem stepFn_parts_eq (pf sf : String → Option (String × String × String × String))
    (st : ParseState) (line : String) :
    (stepFn pf sf st line).parts =
      match pf line with
      | some (_, _, s, _) => addParticipant st.parts s
      | none => st.parts := by
  cases hp : pf line with
  | some v =>
    obtain ⟨t, d, s, x⟩ := v
    simp [stepFn, hp]
  | none =>
    cases hcur : st.cur with
    | none => simp [stepFn, hp, hcur]
    | some c =>
      by_cases hb : pyStrip line = ""
      · simp [stepFn, hp, hcur, hb]
      · cases hs : sf line with
        | none => simp [stepFn, hp, hcur, hb, hs]
        | some v =>
          obtain ⟨a, b, ss, sx⟩ := v
          simp [stepFn, hp, hcur, hb, hs]

theorem mem_addParticipant (parts : List String) (s p : String) :
    p ∈ addParticipant parts s ↔ p ∈ parts ∨ p = s := by
  unfold addParticipant
  split
  · rename_i hin
    constructor
    · exact Or.inl
    · rintro (hp | rfl)
      · exact hp
      · exact hin
  · simp [List.mem_append]

theorem nodup_addParticipant (parts : List String) (s : String) (h : parts.Nodup) :
    (addParticipant parts s).Nodup := by
  unfold addParticipant
  split
  · exact h
  · rename_i hin
    rw [List.nodup_append]
    refine ⟨h, List.nodup_singleton s, ?_⟩
    intro a ha hb
    rw [List.mem_singleton] at hb
    subst hb
    exact hin ha

theorem foldl_parts_mem (pf sf : String → Option (String × String × String × String))
    (lines : List String) (st : ParseState) (p : String) :
    p ∈ (lines.foldl (stepFn pf sf) st).parts ↔
      p ∈ st.parts ∨ ∃ l ∈ lines, ∃ t d x, pf l = some (t, d, p, x) := by
  induction lines generalizing st with
  | nil => simp
  | cons l ls ih =>
    rw [List.foldl_cons, ih, List.exists_mem_cons_iff, stepFn_parts_eq]
    cases hp : pf l with
    | none => simp [hp]
    | some v =>
      obtain ⟨t, d, s, x⟩ := v
      rw [mem_addParticipant]
      have hEx : (∃ t' d' x',
          (some (t, d, s, x) : Option (String × String × String × String)) =
            some (t', d', p, x')) ↔ p = s := by
        constructor
        · rintro ⟨t', d', x', heq⟩
          rw [Option.some.injEq, Prod.mk.injEq, Prod.mk.injEq, Prod.mk.injEq] at heq
          exact heq.2.2.1.symm
        · rintro rfl
          exact ⟨t, d, x, rfl⟩
      rw [hEx]
      tauto

theorem foldl_parts_nodup (pf sf : String → Option (String × String × String × String))
    (lines : List String) (st : ParseState) (h : st.parts.Nodup) :
    ((lines.foldl (stepFn pf sf) st).parts).Nodup := by
  induction lines generalizing st with
  | nil => exact h
  | cons l ls ih =>
    rw [List.foldl_cons]
    apply ih
    cases hp : pf l with
    | none =>
      have heq : (stepFn pf sf st l).parts = st.parts := by rw [stepFn_parts_eq, hp]
      rw [heq]
      exact h
    | some v =>
      obtain ⟨t, d, s, x⟩ := v
      have heq : (stepFn pf sf st l).parts = addParticipant st.parts s := by
        rw [stepFn_parts_eq, hp]
      rw [heq]
      exact nodup_addParticipant _ _ h

theorem stepFn_closure (pf sf : String → Option (String × String × String × String))
    (st : ParseState) (line : String) (h : SenderClosure st) :
    SenderClosure (stepFn pf sf st line) := by
  intro p hp'
  cases hp : pf line with
  | some v =>
    obtain ⟨t, d, s, x⟩ := v
    have hmsgs : (stepFn pf sf st line).msgs = st.msgs ++ st.cur.toList := by
      simp [stepFn, hp]
    have hcur' : (stepFn pf sf st line).cur =
        some ⟨t, d, s, pyStrip x, mediaSearch x.data⟩ := by
      simp [stepFn, hp]
    have hparts : (stepFn pf sf st line).parts = addParticipant st.parts s := by
      simp [stepFn, hp, addParticipant]
    rw [hparts, mem_addParticipant] at hp'
    rcases hp' with hp' | rfl
    · rcases h p hp' with ⟨m, hm, hms⟩ | ⟨c, hcur, hcs⟩
      · exact Or.inl ⟨m, by rw [hmsgs]; exact List.mem_append_left _ hm, hms⟩
      · refine Or.inl ⟨c, ?_, hcs⟩
        rw [hmsgs]
        refine List.mem_append_right _ ?_
        rw [hcur]
        simp
    · exact Or.inr ⟨⟨t, d, p, pyStrip x, mediaSearch x.data⟩, hcur', rfl⟩
  | none =>
    cases hcur : st.cur with
    | none =>
      have heq : stepFn pf sf st line = st := by simp [stepFn, hp, hcur]
      rw [heq] at hp' ⊢
      exact h p hp'
    | some c =>
      by_cases hb : pyStrip line = ""
      · have heq : stepFn pf sf st line = st := by simp [stepFn, hp, hcur, hb]
        rw [heq] at hp' ⊢
        exact h p hp'
      · cases hs : sf line with
        | some v =>
          obtain ⟨a, b, ss, sx⟩ := v
          have hmsgs : (stepFn pf sf st line).msgs = st.msgs := by
            simp [stepFn, hp, hcur, hb, hs]
          have hparts : (stepFn pf sf st line).parts = st.parts := by
            simp [stepFn, hp, hcur, hb, hs]
          have hcur2 : (stepFn pf sf st line).cur =
              some { c with text := c.text ++ "\n" ++ ss ++ ": " ++ pyStrip sx } := by
            simp [stepFn, hp, hcur, hb, hs]
          rw [hparts] at hp'
          rcases h p hp' with ⟨m, hm, hms⟩ | ⟨c0, hc0, hcs⟩
          · exact Or.inl ⟨m, by rw [hmsgs]; exact hm, hms⟩
          · rw [hcur] at hc0
            injection hc0 with hc0
            subst hc0
            exact Or.inr ⟨_, hcur2, hcs⟩
        | none =>
          have hmsgs : (stepFn pf sf st line).msgs = st.msgs := by
            simp [stepFn, hp, hcur, hb, hs]
          have hparts : (stepFn pf sf st line).parts = st.parts := by
            simp [stepFn, hp, hcur, hb, hs]
          have hcur2 : (stepFn pf sf st line).cur =
              some { c with text := c.text ++ "\n" ++ line } := by
            simp [stepFn, hp, hcur, hb, hs]
          rw [hparts] at hp'
          rcases h p hp' with ⟨m, hm, hms⟩ | ⟨c0, hc0, hcs⟩
          · exact Or.inl ⟨m, by rw [hmsgs]; exact hm, hms⟩
          · rw [hcur] at hc0
            injection hc0 with hc0
            subst hc0
            exact Or.inr ⟨_, hcur2, hcs⟩

theorem foldl_closure (pf sf : String → Option (String × String × String × String))
    (lines : List String) (st : ParseState) (h : SenderClosure st) :
    SenderClosure (lines.foldl (stepFn pf sf) st) := by
  induction lines generalizing st with
  | nil => exact h
  | cons l ls ih =>
    rw [List.foldl_cons]
    exact ih _ (stepFn_closure pf sf st l h)

theorem pairwise_lt_insertionSort (parts : List String) (h : parts.Nodup) :
    List.Pairwise (· < ·) (List.insertionSort (· ≤ ·) parts) := by
  have hsorted : List.Sorted (· ≤ ·) (List.insertionSort (· ≤ ·) parts) :=
    List.sorted_insertionSort (· ≤ ·) parts
  have hnodup : (List.insertionSort (· ≤ ·) parts).Nodup :=
    ((List.perm_insertionSort (· ≤ ·) parts).nodup_iff).mpr h
  exact (List.Pairwise.and hsorted hnodup).imp fun hab => lt_iff_le_and_ne.mpr hab

/-- Claim C8: the participants of the output form a strictly sorted
(hence duplicate-free, ascending lexicographic) list whose members are
exactly the senders of the primary-grammar matches among the input
lines, and every participant equals the sender of at least one emitted
message -- no entry comes only from a folded secondary-grammar line. -/
theorem participants_sorted_closure (content : String) :
    List.Pairwise (· < ·) (parse_chat content).participants ∧
    (∀ p, p ∈ (parse_chat content).participants ↔
      ∃ l ∈ preprocess content, ∃ t d x,
        primaryOf (detect_dominant_format (preprocess content)) l = some (t, d, p, x)) ∧
    ∀ p ∈ (parse_chat content).participants,
      ∃ m ∈ (parse_chat content).messages, m.sender = p := by
  have hchat : parse_chat content =
      ⟨((preprocess content).foldl
          (stepFn (primaryOf (detect_dominant_format (preprocess content)))
            (secondaryOf (detect_dominant_format (preprocess content))))
          ⟨[], [], none⟩).msgs ++
        ((preprocess content).foldl
          (stepFn (primaryOf (detect_dominant_format (preprocess content)))
            (secondaryOf (detect_dominant_format (preprocess content))))
          ⟨[], [], none⟩).cur.toList,
        List.insertionSort (· ≤ ·)
          ((preprocess content).foldl
            (stepFn (primaryOf (detect_dominant_format (preprocess content)))
              (secondaryOf (detect_dominant_format (preprocess content))))
            ⟨[], [], none⟩).parts,
        none⟩ := rfl
  set lines := preprocess content with hlines
  set pf := primaryOf (detect_dominant_format lines) with hpfdef
  set sf := secondaryOf (detect_dominant_format lines) with hsfdef
  set st := lines.foldl (stepFn pf sf) ⟨[], [], none⟩ with hstdef
  have hnodup : st.parts.Nodup :=
    foldl_parts_nodup pf sf lines ⟨[], [], none⟩ (by simp)
  have hperm := List.perm_insertionSort (fun a b : String => a ≤ b) st.parts
  refine ⟨?_, ?_, ?_⟩
  · rw [hchat]
    exact pairwise_lt_insertionSort st.parts hnodup
  · intro p
    rw [hchat]
    show p ∈ List.insertionSort (· ≤ ·) st.parts ↔ _
    rw [hperm.mem_iff, hstdef, foldl_parts_mem]
    simp
  · intro p hp
    rw [hchat] at hp ⊢
    have hp' : p ∈ st.parts := hperm.mem_iff.mp hp
    have hclosure : SenderClosure st := by
      refine foldl_closure pf sf lines ⟨[], [], none⟩ ?_
      intro q hq
      exact absurd hq (by simp)
    rcases hclosure p hp' with ⟨m, hm, hms⟩ | ⟨c, hcur, hcs⟩
    · exact ⟨m, List.mem_append_left _ hm, hms⟩
    · refine ⟨c, List.mem_append_right _ ?_, hcs⟩
      rw [hcur]
      simp

/-- Witness for C8: the participant `"Bob"` of a one-line chat is the
sender of an emitted message. -/
theorem participants_sorted_closure_witness :
    ∃ m ∈ (parse_chat "[9:09, 1/1/20] Bob: hi").messages, m.sender = "Bob" :=
  (participants_sorted_closure "[9:09, 1/1/20] Bob: hi").2.2 "Bob" (by decide)

end ChatSearch



